/-
Verification of the sqllog analyzer (Go repository anti-river-ten-demo).

This file shallowly embeds the data model and operations of the repository:
  * the log-line parser `ParseLine` and its regex
    `^DB:([^,]+),sql:(.*?),exec_time_ms:(\d+),exec_count:(\d+)\s*$`
    (internal/sqllog parse code),
  * the streaming parser `ParseStream` and the Upload handler's callbacks,
  * the report pipeline `Analyze` with its filter normalization
    (`clampLimit`, `sanitizeFractions`), anomaly classification
    (`applyAnomalyFilters`) and `deriveReasonsAndSuggestions`,
  * the top-pattern statistics queries, and
  * `ExportCSV`.

Machine integers (Go int64) are modelled as `Int` with explicit range
checks where the code checks ranges; Go `float64` percentile fractions are
modelled as `Rat` with the exact arithmetic the code performs on them;
`time.Time` values are modelled as abstract instants (`Int`), since no
claim depends on calendar arithmetic.  Database queries are modelled as
pure list operations over an in-memory table, following the SQL emitted by
the code.
-/
import Mathlib

namespace SqllogModel

/-! ### Characters and strings: Go helpers -/

/-- The ASCII whitespace characters recognized by Go's `unicode.IsSpace`
(plus NEL and NBSP, the Latin-1 additions).  `strings.TrimSpace` trims
exactly these on ASCII/Latin-1 input. -/
def goIsSpace (c : Char) : Bool :=
  c = ' ' || c = '\t' || c = '\n' || c = Char.ofNat 11 || c = Char.ofNat 12 ||
  c = '\r' || c = Char.ofNat 133 || c = Char.ofNat 160

/-- The character class `\s` of Go's regexp package: `[\t\n\f\r ]`. -/
def reIsSpace (c : Char) : Bool :=
  c = '\t' || c = '\n' || c = Char.ofNat 12 || c = '\r' || c = ' '

/-- Drop trailing characters satisfying `p` (the right half of Go's
`strings.TrimSpace`). -/
def dropTrailing (p : Char → Bool) (l : List Char) : List Char :=
  (l.reverse.dropWhile p).reverse

/-- Go's `strings.TrimSpace` on a list of characters. -/
def goTrim (l : List Char) : List Char :=
  dropTrailing goIsSpace (l.dropWhile goIsSpace)

/-- Go's `strings.TrimSpace` on strings. -/
def goTrimString (s : String) : String := ⟨goTrim s.data⟩

/-- ASCII lower-casing, modelling Go's `strings.ToLower` (the SQL text the
code lowercases is handled case-by-case on ASCII letters). -/
def goToLowerChar (c : Char) : Char :=
  if 'A' ≤ c && c ≤ 'Z' then Char.ofNat (c.toNat + 32) else c

/-- Go's `strings.ToLower` on a string (ASCII). -/
def goToLower (s : String) : String := ⟨s.data.map goToLowerChar⟩

/-- Substring test on character lists: does `pat` occur contiguously in `l`?
Models Go's `strings.Contains`. -/
def listHasSub (l pat : List Char) : Bool :=
  match l with
  | [] => pat.isEmpty
  | _ :: t => pat.isPrefixOf l || listHasSub t pat

/-- Go's `strings.Contains s sub`. -/
def goContains (s sub : String) : Bool := listHasSub s.data sub.data

/-! ### Decimal formatting and parsing (Go `strconv` / `fmt "%d"`) -/

/-- The decimal digit character for `n < 10`. -/
def digitChar : Nat → Char
  | 0 => '0' | 1 => '1' | 2 => '2' | 3 => '3' | 4 => '4'
  | 5 => '5' | 6 => '6' | 7 => '7' | 8 => '8' | _ => '9'

/-- Fueled decimal rendering of a natural number (most significant digit
first).  Fuel `n+1` always suffices. -/
def natDigitsCore : Nat → Nat → List Char
  | 0, _ => []
  | fuel + 1, n =>
    if n < 10 then [digitChar n]
    else natDigitsCore fuel (n / 10) ++ [digitChar (n % 10)]

/-- Decimal digits of a natural number, as Go's `strconv.FormatInt` /
`fmt.Sprintf "%d"` render it. -/
def natDigits (n : Nat) : List Char := natDigitsCore (n + 1) n

/-- Go's `%d` rendering of an `int64` value (modelled as `Int`). -/
def goIntRepr (i : Int) : String :=
  if i < 0 then ⟨'-' :: natDigits (-i).toNat⟩ else ⟨natDigits i.toNat⟩

/-- Numeric value of a list of decimal digit characters. -/
def digitsToNat (l : List Char) : Nat :=
  l.foldl (fun a c => a * 10 + (c.toNat - 48)) 0

/-- `2^63 - 1`, the largest Go `int64`. -/
def maxInt64 : Int := 9223372036854775807

/-- Go's `strconv.ParseInt(s, 10, 64)` applied to an all-digit string:
it yields the value unless it overflows `int64`. -/
def goParseInt64 (l : List Char) : Option Int :=
  let n := digitsToNat l
  if (n : Int) > maxInt64 then none else some (n : Int)

/-! ### The SQLLog record and the line parser -/

/-- The content fields of the Go `SQLLog` record (`DBName`, `SQLQuery`,
`ExecTimeMs`, `ExecCount`, `CreatedAt`); the auto-assigned primary key is
omitted because no analyzed code reads it.  `ParseLine` produces records
with the zero `CreatedAt`. -/
structure SQLLog where
  dbName : String
  sqlQuery : String
  execTimeMs : Int
  execCount : Int
  createdAt : Int := 0
  deriving DecidableEq, Repr

/-- The five parse-failure kinds of the line parser. -/
inductive ParseErrKind where
  | emptyLine
  | malformedFormat
  | invalidNumber
  | negativeValue
  | missingField
  deriving DecidableEq, Repr

instance {ε α : Type} [DecidableEq ε] [DecidableEq α] : DecidableEq (Except ε α) :=
  fun a b =>
    match a, b with
    | .ok x, .ok y =>
      if h : x = y then isTrue (by rw [h]) else isFalse (fun he => h (by injection he))
    | .error x, .error y =>
      if h : x = y then isTrue (by rw [h]) else isFalse (fun he => h (by injection he))
    | .ok _, .error _ => isFalse (fun h => Except.noConfusion h)
    | .error _, .ok _ => isFalse (fun h => Except.noConfusion h)

/-- Strip a literal from the front of a character list (regex literal
matching). -/
def stripLit : List Char → List Char → Option (List Char)
  | [], l => some l
  | _ :: _, [] => none
  | p :: ps, c :: cs => if p = c then stripLit ps cs else none

/-- Match the anchored tail `,exec_time_ms:(\d+),exec_count:(\d+)\s*$` of
the line regex against `l`, returning the two digit groups.  `(\d+)` is
greedy; backtracking it below its maximal run can never help because the
following literal starts with `,` and `\s*` matches no digit, so the
maximal digit run is taken. -/
def tailMatch (l : List Char) : Option (List Char × List Char) :=
  match stripLit ",exec_time_ms:".data l with
  | none => none
  | some r1 =>
    let d1 := r1.takeWhile Char.isDigit
    let r2 := r1.dropWhile Char.isDigit
    if d1.isEmpty then none
    else
      match stripLit ",exec_count:".data r2 with
      | none => none
      | some r3 =>
        let d2 := r3.takeWhile Char.isDigit
        let r4 := r3.dropWhile Char.isDigit
        if d2.isEmpty then none
        else if r4.all reIsSpace then some (d1, d2) else none

/-- The non-greedy group `(.*?)` followed by the anchored tail: find the
shortest prefix (whose characters `.` can match, i.e. not `\n`) such that
the tail pattern matches the rest.  Returns the group and the two digit
groups. -/
def scanSql : List Char → Option (List Char × List Char × List Char)
  | [] =>
    match tailMatch [] with
    | some (d1, d2) => some ([], d1, d2)
    | none => none
  | c :: t =>
    match tailMatch (c :: t) with
    | some (d1, d2) => some ([], d1, d2)
    | none =>
      if c = '\n' then none
      else
        match scanSql t with
        | none => none
        | some (g2, d1, d2) => some (c :: g2, d1, d2)

/-- Submatch extraction of the line regex
`^DB:([^,]+),sql:(.*?),exec_time_ms:(\d+),exec_count:(\d+)\s*$`
on an (already trimmed) line.  Since group 1 cannot contain a comma and is
followed by a literal comma, it is exactly the text up to the first comma. -/
def lineGroups (l : List Char) :
    Option (List Char × List Char × List Char × List Char) :=
  match stripLit "DB:".data l with
  | none => none
  | some r0 =>
    let g1 := r0.takeWhile (fun c => c ≠ ',')
    let r1 := r0.dropWhile (fun c => c ≠ ',')
    if g1.isEmpty then none
    else
      match r1 with
      | [] => none
      | _ :: r2 =>
        match stripLit "sql:".data r2 with
        | none => none
        | some r3 =>
          match scanSql r3 with
          | none => none
          | some (g2, d1, d2) => some (g1, g2, d1, d2)

/-- The Go `ParseLine`: trim the line, reject empty lines, match the regex,
trim the db and sql groups, parse the two integers, reject empty fields and
negative values, in exactly that order.  Each failure kind corresponds to
one `fmt.Errorf` site of the source. -/
def ParseLine (s : String) : Except ParseErrKind SQLLog :=
  let line := goTrim s.data
  if line.isEmpty then .error .emptyLine
  else
    match lineGroups line with
    | none => .error .malformedFormat
    | some (g1, g2, d1, d2) =>
      let dbName := goTrim g1
      let sqlQuery := goTrim g2
      match goParseInt64 d1 with
      | none => .error .invalidNumber
      | some t =>
        match goParseInt64 d2 with
        | none => .error .invalidNumber
        | some c =>
          if dbName.isEmpty || sqlQuery.isEmpty then .error .missingField
          else if t < 0 || c < 0 then .error .negativeValue
          else .ok ⟨⟨dbName⟩, ⟨sqlQuery⟩, t, c, 0⟩

/-- The line grammar `DB:<name>,sql:<query>,exec_time_ms:<int>,exec_count:<int>`
used to format a record back into a log line. -/
def formatLine (r : SQLLog) : String :=
  "DB:" ++ r.dbName ++ ",sql:" ++ r.sqlQuery ++
  ",exec_time_ms:" ++ goIntRepr r.execTimeMs ++
  ",exec_count:" ++ goIntRepr r.execCount

/-! ### The five parse-failure conditions, stated independently -/

/-- Failure condition EmptyLine: the line is empty after trimming. -/
def emptyLineCond (s : String) : Prop := goTrim s.data = []

/-- Failure condition MalformedFormat: non-empty but the four-field regex
does not match. -/
def malformedCond (s : String) : Prop :=
  goTrim s.data ≠ [] ∧ lineGroups (goTrim s.data) = none

/-- Failure condition InvalidNumber: the regex matches (groups
`(db, sql, digits1, digits2)`) but one of the two digit groups does not
parse as an `int64` (overflow). -/
def invalidNumberCond (s : String) : Prop :=
  ∃ g, lineGroups (goTrim s.data) = some g ∧
    (goParseInt64 g.2.2.1 = none ∨ goParseInt64 g.2.2.2 = none)

/-- Failure condition MissingField: regex and numbers fine, but the
database or SQL group is empty after trimming. -/
def missingFieldCond (s : String) : Prop :=
  ∃ g, lineGroups (goTrim s.data) = some g ∧
    goParseInt64 g.2.2.1 ≠ none ∧ goParseInt64 g.2.2.2 ≠ none ∧
    (goTrim g.1 = [] ∨ goTrim g.2.1 = [])

/-- Failure condition NegativeValue: everything else fine but a parsed
value is negative (vacuous under this regex, since the digit groups parse
to non-negative values; kept because the source checks it). -/
def negativeValueCond (s : String) : Prop :=
  ∃ g t c, lineGroups (goTrim s.data) = some g ∧
    goParseInt64 g.2.2.1 = some t ∧ goParseInt64 g.2.2.2 = some c ∧
    goTrim g.1 ≠ [] ∧ goTrim g.2.1 ≠ [] ∧ (t < 0 ∨ c < 0)

/-! ### ParseStream and the Upload handler's callbacks

`ParseStream` scans the reader line by line; for a bad line it calls
`onError` and continues, for a good line it calls `onEntry` and, only when
`onEntry` itself fails, additionally `onError` with a store error.  The
model below is the pure trace of callback invocations for a finite list of
scanner lines, with no cancellation and no scanner error.  `store r`
models the return value of `onEntry`. -/

/-- One callback invocation of `ParseStream`. -/
inductive StreamEvent where
  | entry (r : SQLLog)
  | parseErr (k : ParseErrKind)
  | storeErr
  deriving DecidableEq, Repr

/-- The sequence of callback invocations `ParseStream` makes on a list of
scanner lines. -/
def parseStreamEvents (store : SQLLog → Bool) (lines : List String) :
    List StreamEvent :=
  (lines.map fun l =>
    match ParseLine l with
    | .error k => [StreamEvent.parseErr k]
    | .ok r => if store r then [StreamEvent.entry r]
               else [StreamEvent.entry r, StreamEvent.storeErr]).flatten

/-- Is the event an `onEntry` (accept) invocation? -/
def StreamEvent.isEntry : StreamEvent → Bool
  | .entry _ => true
  | _ => false

/-- Is the event an `onError` invocation for a parse failure? -/
def StreamEvent.isParseErr : StreamEvent → Bool
  | .parseErr _ => true
  | _ => false

/-- The Upload handler's fold over the stream: its `onEntry` increments
`total` and appends to `entries` (always returning nil), its `onError`
increments `total` and `skipped`.  State is `(total, skipped, entries)`. -/
def uploadStep (st : Nat × Nat × List SQLLog) (l : String) :
    Nat × Nat × List SQLLog :=
  match ParseLine l with
  | .ok r => (st.1 + 1, st.2.1, st.2.2 ++ [r])
  | .error _ => (st.1 + 1, st.2.1 + 1, st.2.2)

/-- The Upload handler's counters and accepted records after the stream. -/
def uploadProcess (lines : List String) : Nat × Nat × List SQLLog :=
  lines.foldl uploadStep (0, 0, [])

/-! ### Report filter and its normalization (`Analyze` prologue) -/

def defaultSlowMs : Int := 1000
def defaultFreqSlowMs : Int := 500
def defaultFreqCount : Int := 100
def defaultMaxAnomalies : Int := 500
def maxAnomaliesCap : Int := 5000
def defaultTopPatterns : Int := 20
def maxTopPatterns : Int := 200
def maxPercentilesCount : Nat := 10

/-- The default percentile fractions `{0.50, 0.75, 0.90, 0.95, 0.99}`
(Go float64 fractions modelled as rationals). -/
def defaultPercentilesFractions : List ℚ := [1/2, 3/4, 9/10, 19/20, 99/100]

/-- The Go `ReportFilter`.  Instants are abstract `Int` (the zero value of
`time.Time` is modelled as `0`). -/
structure ReportFilter where
  fromTime : Int
  toTime : Int
  db : String
  limit : Int
  slowMs : Int
  freqSlowMs : Int
  freqCount : Int
  maxCap : Int
  pcts : List ℚ
  topPatterns : Int
  deriving DecidableEq, Repr

/-- `DefaultFilter`: a 7-day window ending at `now` (instants in
nanoseconds as Go durations), default thresholds and caps. -/
def DefaultFilter (now : Int) : ReportFilter where
  fromTime := now - 7 * 24 * 60 * 60 * 1000000000
  toTime := now
  db := ""
  limit := defaultMaxAnomalies
  slowMs := defaultSlowMs
  freqSlowMs := defaultFreqSlowMs
  freqCount := defaultFreqCount
  maxCap := maxAnomaliesCap
  pcts := defaultPercentilesFractions
  topPatterns := defaultTopPatterns

/-- The Go `clampLimit`: replace a non-positive cap by the 5000 ceiling,
return the 500 default for a non-positive `n` (note: without applying the
cap), otherwise clamp `n` to the cap. -/
def clampLimit (n cap : Int) : Int :=
  let c := if cap ≤ 0 then maxAnomaliesCap else cap
  if n ≤ 0 then defaultMaxAnomalies
  else if n > c then c
  else n

/-- One step of `sanitizeFractions`: clamp the fraction into `[0,1]`, round
it to a 2-decimal key (`int(v*100 + 0.5)`; the operand is non-negative so
the Go truncation is the floor), and keep it unless the key was seen. -/
def sanitizeStep (st : List Int × List ℚ) (v : ℚ) : List Int × List ℚ :=
  let v1 := if v < 0 then 0 else v
  let v2 := if v1 > 1 then 1 else v1
  let key : Int := ⌊v2 * 100 + 1/2⌋
  if key ∈ st.1 then st else (key :: st.1, st.2 ++ [(key : ℚ) / 100])

/-- The Go `sanitizeFractions`: clamp into `[0,1]`, round to 2-decimal
granularity, deduplicate, and sort ascending. -/
def sanitizeFractions (l : List ℚ) : List ℚ :=
  List.insertionSort (· ≤ ·) (l.foldl sanitizeStep ([], [])).2

/-- Time-window defaulting of `Analyze`: replace a zero `From`/`To` or an
inverted window by the 7-day default window. -/
def normalizeTimes (now : Int) (f : ReportFilter) : ReportFilter :=
  if f.fromTime = 0 ∨ f.toTime = 0 ∨ f.fromTime > f.toTime then
    let df := DefaultFilter now
    let f1 := if f.fromTime = 0 then { f with fromTime := df.fromTime } else f
    if f1.toTime = 0 ∨ f1.fromTime > f1.toTime then { f1 with toTime := df.toTime }
    else f1
  else f

/-- `Analyze` limit clamping stage. -/
def normalizeLimit (f : ReportFilter) : ReportFilter :=
  { f with limit := clampLimit f.limit f.maxCap }

/-- `Analyze` threshold-default stage: apply the three defaults when a
threshold is omitted or invalid (zero or negative). -/
def normalizeThresholds (f : ReportFilter) : ReportFilter :=
  { f with
    slowMs := if f.slowMs ≤ 0 then defaultSlowMs else f.slowMs
    freqSlowMs := if f.freqSlowMs ≤ 0 then defaultFreqSlowMs else f.freqSlowMs
    freqCount := if f.freqCount ≤ 0 then defaultFreqCount else f.freqCount }

/-- `Analyze` percentile-fraction stage: default when empty, truncate to
the first 10, then sanitize. -/
def normalizePcts (f : ReportFilter) : ReportFilter :=
  let ps := if f.pcts.isEmpty then defaultPercentilesFractions else f.pcts
  let ps := if ps.length > maxPercentilesCount then ps.take maxPercentilesCount else ps
  { f with pcts := sanitizeFractions ps }

/-- `Analyze` top-patterns stage: default 20, upper bound 200. -/
def normalizeTop (f : ReportFilter) : ReportFilter :=
  let t := if f.topPatterns ≤ 0 then defaultTopPatterns else f.topPatterns
  { f with topPatterns := if t > maxTopPatterns then maxTopPatterns else t }

/-- The defaulting/normalization prologue of `Analyze`: time window
defaults, `clampLimit`, threshold defaults, percentile-fraction truncation
and sanitization, top-pattern bounds, in source order. -/
def normalizeFilter (now : Int) (f : ReportFilter) : ReportFilter :=
  normalizeTop (normalizePcts (normalizeThresholds (normalizeLimit (normalizeTimes now f))))

/-! ### Anomaly classification and derived reasons/suggestions -/

/-- The `applyAnomalyFilters` WHERE clause:
`(exec_time_ms >= slowMs) OR (exec_time_ms >= freqSlowMs AND exec_count >= freqCount)`. -/
def isAnomalous (slowMs freqSlowMs freqCount : Int) (r : SQLLog) : Bool :=
  decide (r.execTimeMs ≥ slowMs) ||
  (decide (r.execTimeMs ≥ freqSlowMs) && decide (r.execCount ≥ freqCount))

/-- The `addReason`/`addSuggestion` closures: append unless present. -/
def addIfAbsent (l : List String) (s : String) : List String :=
  if s ∈ l then l else l ++ [s]

/-- The Go `deriveReasonsAndSuggestions`, in source order: the three
reasons (`slow_query`, `frequent_and_slow`, `select_star`, the latter
immediately adding `avoid_select_star`), then the suggestion mapping
(`add_index_on_where_columns` when a slow reason is present,
`consider_caching` when the count is frequent). -/
def deriveReasonsAndSuggestions (it : SQLLog) (slowMs freqSlowMs freqCount : Int) :
    List String × List String :=
  let lsql := goToLower it.sqlQuery
  let reasons : List String := []
  let reasons := if it.execTimeMs ≥ slowMs then addIfAbsent reasons "slow_query" else reasons
  let reasons := if it.execTimeMs ≥ freqSlowMs ∧ it.execCount ≥ freqCount then
      addIfAbsent reasons "frequent_and_slow" else reasons
  let hasStar := goContains lsql "select *"
  let reasons := if hasStar then addIfAbsent reasons "select_star" else reasons
  let suggestions : List String := []
  let suggestions := if hasStar then addIfAbsent suggestions "avoid_select_star" else suggestions
  let suggestions := if "slow_query" ∈ reasons ∨ "frequent_and_slow" ∈ reasons then
      addIfAbsent suggestions "add_index_on_where_columns" else suggestions
  let suggestions := if it.execCount ≥ freqCount then
      addIfAbsent suggestions "consider_caching" else suggestions
  (reasons, suggestions)

/-! ### The Analyze pipeline over an in-memory table -/

/-- The `applyFilters` WHERE clause: `created_at` in the window, and the
exact database-name filter when the trimmed filter is non-empty. -/
def rowInWindow (f : ReportFilter) (r : SQLLog) : Bool :=
  decide (f.fromTime ≤ r.createdAt) && decide (r.createdAt ≤ f.toTime) &&
  (if goTrimString f.db = "" then true else r.dbName == goTrimString f.db)

/-- The `ORDER BY exec_time_ms DESC, exec_count DESC` ordering used for the
anomaly list. -/
def anomOrder (a b : SQLLog) : Prop :=
  a.execTimeMs > b.execTimeMs ∨ (a.execTimeMs = b.execTimeMs ∧ a.execCount ≥ b.execCount)

instance : DecidableRel anomOrder := fun a b => by unfold anomOrder; infer_instance

/-- `GROUP BY db_name` with `COUNT(*)`, as an association list keyed by
first appearance (the Go code stores the rows into a map). -/
def byDBCounts (rows : List SQLLog) : List (String × Nat) :=
  (rows.map (fun r => r.dbName)).dedup.map
    (fun d => (d, rows.countP (fun r => r.dbName == d)))

/-- One aggregated normalized SQL pattern with its occurrence count. -/
structure PatternStat where
  pattern : String
  occurrences : Nat
  deriving DecidableEq, Repr

/-- A percentile set: keys like `p50` mapped to values. -/
def PercentileSet := List (String × ℚ)

instance : DecidableEq PercentileSet := by unfold PercentileSet; infer_instance

/-- Percentile sets for `exec_time_ms` and `exec_count`. -/
structure Percentiles where
  execTime : PercentileSet
  execCount : PercentileSet
  deriving DecidableEq

/-- The Go `pctKey`: `fmt.Sprintf("p%d", int(f*100+0.5))`. -/
def pctKey (q : ℚ) : String := "p" ++ goIntRepr ⌊q * 100 + 1/2⌋

/-- PostgreSQL `percentile_disc(q) WITHIN GROUP (ORDER BY x)`: the
nearest-rank (non-interpolated) discrete percentile, i.e. the element at
1-based position `⌈q·n⌉` of the sorted values (`none` on an empty set). -/
def percentileDisc (q : ℚ) (xs : List Int) : Option Int :=
  let sorted := List.insertionSort (· ≤ ·) xs
  match sorted with
  | [] => none
  | x :: _ =>
    let idx := max 1 ⌈q * (xs.length : ℚ)⌉
    some (sorted.getD (idx.toNat - 1) x)

/-- The percentile section of the report for one list of rows. -/
def percentilesOfRows (pcts : List ℚ) (rows : List SQLLog) : Percentiles where
  execTime := pcts.filterMap fun q =>
    (percentileDisc q (rows.map (fun r => r.execTimeMs))).map
      (fun v => (pctKey q, (v : ℚ)))
  execCount := pcts.filterMap fun q =>
    (percentileDisc q (rows.map (fun r => r.execCount))).map
      (fun v => (pctKey q, (v : ℚ)))

/-- Occurrence counts of the normalized patterns of a list of rows
(`GROUP BY pattern` with `COUNT(*)`; group order immaterial, keyed by
first appearance).  The server-side normalization expression is a
parameter `normalize`. -/
def aggPatternCounts (normalize : String → String) (rows : List SQLLog) :
    List (String × Nat) :=
  let ps := rows.map (fun r => normalize r.sqlQuery)
  ps.dedup.map (fun p => (p, ps.count p))

/-- Weakly sorted by occurrence count descending — all an
`ORDER BY occurrences DESC` guarantees. -/
def occDescSorted (l : List (String × Nat)) : Prop :=
  l.Pairwise (fun a b => a.2 ≥ b.2)

instance (l : List (String × Nat)) : Decidable (occDescSorted l) := by
  unfold occDescSorted; infer_instance

/-- The ranking key of the per-database pattern query:
occurrences descending, pattern text ascending. -/
def rankLE (a b : String × Nat) : Prop :=
  a.2 > b.2 ∨ (a.2 = b.2 ∧ a.1 ≤ b.1)

instance : DecidableRel rankLE := fun a b => by unfold rankLE; infer_instance

instance : IsTotal (String × Nat) rankLE where
  total a b := by
    unfold rankLE
    rcases Nat.lt_trichotomy a.2 b.2 with h | h | h
    · exact Or.inr (Or.inl h)
    · rcases le_total a.1 b.1 with hs | hs
      · exact Or.inl (Or.inr ⟨h, hs⟩)
      · exact Or.inr (Or.inr ⟨h.symm, hs⟩)
    · exact Or.inl (Or.inl h)

instance : IsTrans (String × Nat) rankLE where
  trans a b c hab hbc := by
    unfold rankLE at *
    rcases hab with h1 | ⟨h1, h1'⟩ <;> rcases hbc with h2 | ⟨h2, h2'⟩
    · exact Or.inl (by omega)
    · exact Or.inl (by omega)
    · exact Or.inl (by omega)
    · exact Or.inr ⟨by omega, le_trans h1' h2'⟩

/-- Admissible results of the overall top-patterns query
(`ORDER BY occurrences DESC LIMIT n` — ties in the occurrence count are
not broken, so any compatible order may be produced). -/
def topOverallAdmissible (normalize : String → String) (rows : List SQLLog)
    (f : ReportFilter) (res : List (String × Nat)) : Prop :=
  ∃ l, l.Perm (aggPatternCounts normalize (rows.filter (rowInWindow f))) ∧
    occDescSorted l ∧ res = l.take f.topPatterns.toNat

/-- The per-database top-patterns result for one database scope
(`ROW_NUMBER() OVER (PARTITION BY db_name ORDER BY occurrences DESC,
pattern ASC)` filtered to `rn <= n`): fully ranked, then capped. -/
def topPerDB (normalize : String → String) (rows : List SQLLog)
    (f : ReportFilter) (db : String) : List (String × Nat) :=
  let rowsScoped := (rows.filter (rowInWindow f)).filter (fun r => r.dbName == db)
  (List.insertionSort rankLE (aggPatternCounts normalize rowsScoped)).take
    f.topPatterns.toNat

/-- The Go `ReportSummary` (counts as `Nat`). -/
structure ReportSummary where
  totalQueries : Nat
  anomalyCount : Nat
  suggestionCount : Nat
  byDB : List (String × Nat)
  fromTime : Int
  toTime : Int
  deriving DecidableEq, Repr

/-- The Go `AnomalyDetail`. -/
structure AnomalyDetail where
  dbName : String
  sqlQuery : String
  execTimeMs : Int
  execCount : Int
  reasons : List String
  suggestions : List String
  deriving DecidableEq, Repr

/-- The Go `ReportData` payload. -/
structure ReportData where
  generatedAt : Int
  timezone : String
  summary : ReportSummary
  anomalies : List AnomalyDetail
  percentilesOverall : Percentiles
  percentilesByDB : List (String × Percentiles)
  topPatternsOverall : List (String × Nat)
  topPatternsByDB : List (String × List (String × Nat))
  deriving DecidableEq

/-- The `Analyze` pipeline over an in-memory table `rows`: normalize the
filter, count the filtered rows, group by database, list the anomalies
(ordered by severity, capped at the limit), count the anomalies without
the limit, derive reasons/suggestions and count the suggestion carriers,
and attach the extended statistics.  `topPatternsOverall` is one
admissible result of the overall query (the ranked order); the full
relation is `topOverallAdmissible`. -/
def Analyze (rows : List SQLLog) (normalize : String → String) (now : Int)
    (f0 : ReportFilter) : ReportData :=
  let f := normalizeFilter now f0
  let filtered := rows.filter (rowInWindow f)
  let total := filtered.length
  let byDB := byDBCounts filtered
  let anomRows := filtered.filter (fun r => isAnomalous f.slowMs f.freqSlowMs f.freqCount r)
  let anomsSource := (List.insertionSort anomOrder anomRows).take f.limit.toNat
  let anomalyCount := anomRows.length
  let anoms := anomsSource.map fun it =>
    let rs := deriveReasonsAndSuggestions it f.slowMs f.freqSlowMs f.freqCount
    AnomalyDetail.mk it.dbName it.sqlQuery it.execTimeMs it.execCount rs.1 rs.2
  let suggestionCarriers := anoms.countP (fun a => !a.suggestions.isEmpty)
  { generatedAt := now
    timezone := "Asia/Ho_Chi_Minh"
    summary :=
      { totalQueries := total
        anomalyCount := anomalyCount
        suggestionCount := suggestionCarriers
        byDB := byDB
        fromTime := f.fromTime
        toTime := f.toTime }
    anomalies := anoms
    percentilesOverall := percentilesOfRows f.pcts filtered
    percentilesByDB := (filtered.map (fun r => r.dbName)).dedup.map fun d =>
      (d, percentilesOfRows f.pcts (filtered.filter (fun r => r.dbName == d)))
    topPatternsOverall :=
      (List.insertionSort (fun a b => a.2 ≥ b.2) (aggPatternCounts normalize filtered)).take
        f.topPatterns.toNat
    topPatternsByDB := (filtered.map (fun r => r.dbName)).dedup.map fun d =>
      (d, topPerDB normalize rows f d) }

/-! ### CSV export (`ExportCSV`) -/

/-- Go `encoding/csv` quoting rule (`fieldNeedsQuotes`, comma separator,
`UseCRLF=false`): quote a non-empty field when it is the PostgreSQL
end-of-data marker, contains a comma, quote or line break, or begins with
white space. -/
def csvFieldNeedsQuotes (s : String) : Bool :=
  match s.data with
  | [] => false
  | c :: _ =>
    s.data = ['\\', '.'] ||
    s.data.any (fun x => x = ',' || x = '"' || x = '\r' || x = '\n') ||
    goIsSpace c

/-- In a quoted CSV field, quotes are doubled (CR and LF are written
verbatim when `UseCRLF` is off). -/
def csvEscape (l : List Char) : List Char :=
  l.foldr (fun c acc => if c = '"' then '"' :: '"' :: acc else c :: acc) []

/-- One encoded CSV field. -/
def csvField (s : String) : List Char :=
  if csvFieldNeedsQuotes s then '"' :: (csvEscape s.data ++ ['"']) else s.data

/-- One CSV record: comma-joined encoded fields plus the `\n` terminator
(an empty record is the bare terminator). -/
def csvRecord (fields : List String) : List Char :=
  (List.intercalate [','] (fields.map csvField)) ++ ['\n']

/-- `strings.Join(l, "|")`. -/
def joinBar (l : List String) : String := String.intercalate "|" l

/-- `strings.ReplaceAll(s, "\n", " ")`: flatten SQL to one line. -/
def replaceNL (s : String) : String :=
  ⟨s.data.map (fun c => if c = '\n' then ' ' else c)⟩

/-- One row of the anomaly table: db, times, counts, `|`-joined reasons
and suggestions, single-line SQL. -/
def anomalyCSVRow (a : AnomalyDetail) : List Char :=
  csvRecord [a.dbName, goIntRepr a.execTimeMs, goIntRepr a.execCount,
    joinBar a.reasons, joinBar a.suggestions, replaceNL a.sqlQuery]

/-- RFC3339 rendering of an abstract instant.  The claims never inspect
this text, so the calendar arithmetic of `time.Time.Format` is abstracted
to an injective rendering of the instant. -/
def rfc3339Model (t : Int) : String := "ts:" ++ goIntRepr t

/-- Decimal digits padded on the left to width 3 (fraction part of
`%.3f`). -/
def pad3 (n : Nat) : String :=
  let d := natDigits n
  ⟨List.replicate (3 - d.length) '0' ++ d⟩

/-- The Go `trimFloat`: integers without decimals, otherwise three decimal
places (the rounding of `%.3f` is modelled half-up; no claim depends on
the tie direction). -/
def trimFloatModel (q : ℚ) : String :=
  if q.den = 1 then goIntRepr q.num
  else
    let a := |q|
    let scaled := ⌊a * 1000 + 1/2⌋
    (if q < 0 then "-" else "") ++
      goIntRepr (scaled / 1000) ++ "." ++ pad3 (scaled % 1000).toNat

/-- Numeric value of a percentile label like `p50` (the `Sscanf` of the
Go `fmtPctSet`). -/
def pctLabelValue (k : String) : Int :=
  match k.data with
  | [] => 0
  | c :: rest =>
    if c = 'p' ∨ c = 'P' then (digitsToNat (rest.takeWhile Char.isDigit) : Int)
    else 0

/-- The Go `fmtPctSet`: `k=v` pairs ordered by the numeric percentile. -/
def fmtPctSet (ps : PercentileSet) : String :=
  match ps with
  | [] => ""
  | _ =>
    let pairs := List.insertionSort
      (fun a b => pctLabelValue a.1 ≤ pctLabelValue b.1) ps
    String.intercalate "," (pairs.map (fun kv => kv.1 ++ "=" ++ trimFloatModel kv.2))

/-- Ascending sort of strings (`sort.Strings`). -/
def sortStrings (l : List String) : List String :=
  List.insertionSort (fun a b => a ≤ b) l

/-- Association-list lookup with a default (reading a Go map). -/
def lookupD {α : Type} (l : List (String × α)) (k : String) (dft : α) : α :=
  match l.find? (fun kv => kv.1 == k) with
  | some kv => kv.2
  | none => dft

/-- Everything `ExportCSV` writes before the anomaly table: the summary
key/value pairs, the optional `by_db` line, the optional percentile and
top-pattern sections, and the blank spacer record. -/
def exportCSVP (data : ReportData) : List Char :=
  csvRecord ["key", "value"] ++
  csvRecord ["generated_at", rfc3339Model data.generatedAt] ++
  csvRecord ["timezone", data.timezone] ++
  csvRecord ["from", rfc3339Model data.summary.fromTime] ++
  csvRecord ["to", rfc3339Model data.summary.toTime] ++
  csvRecord ["total_queries", goIntRepr data.summary.totalQueries] ++
  csvRecord ["anomaly_count", goIntRepr data.summary.anomalyCount] ++
  csvRecord ["suggestion_count", goIntRepr data.summary.suggestionCount] ++
  (if data.summary.byDB.length > 0 then
    csvRecord ["by_db", String.intercalate "; "
      (sortStrings (data.summary.byDB.map (fun kv => kv.1 ++ "=" ++ goIntRepr kv.2)))]
   else []) ++
  (if data.percentilesOverall.execTime.length > 0 ∨
      data.percentilesOverall.execCount.length > 0 then
    csvRecord [] ++
    csvRecord ["percentiles_overall_exec_time_ms", fmtPctSet data.percentilesOverall.execTime] ++
    csvRecord ["percentiles_overall_exec_count", fmtPctSet data.percentilesOverall.execCount]
   else []) ++
  (if data.percentilesByDB.length > 0 then
    csvRecord [] ++
    ((sortStrings (data.percentilesByDB.map (fun kv => kv.1))).map fun db =>
      let ps := lookupD data.percentilesByDB db ⟨[], []⟩
      csvRecord ["percentiles_db_exec_time_ms[" ++ db ++ "]", fmtPctSet ps.execTime] ++
      csvRecord ["percentiles_db_exec_count[" ++ db ++ "]", fmtPctSet ps.execCount]).flatten
   else []) ++
  (if data.topPatternsOverall.length > 0 then
    csvRecord [] ++
    csvRecord ["top_patterns_overall_count", goIntRepr data.topPatternsOverall.length] ++
    csvRecord ["pattern", "occurrences"] ++
    (data.topPatternsOverall.map fun p =>
      csvRecord [p.1, goIntRepr p.2]).flatten
   else []) ++
  (if data.topPatternsByDB.length > 0 then
    csvRecord [] ++
    ((sortStrings (data.topPatternsByDB.map (fun kv => kv.1))).map fun db =>
      let plist := lookupD data.topPatternsByDB db []
      csvRecord ["top_patterns_db[" ++ db ++ "]", goIntRepr plist.length] ++
      csvRecord ["pattern", "occurrences"] ++
      (plist.map fun p => csvRecord [p.1, goIntRepr p.2]).flatten ++
      csvRecord []).flatten
   else []) ++
  csvRecord []

/-- The Go `ExportCSV`: the prefix sections, then the anomaly table with
its header and one row per anomaly, in list order.  The csv writer over a
`bytes.Buffer` cannot fail, so `w.Error()` is always nil and the function
always returns the bytes. -/
def ExportCSV (data : ReportData) : List Char :=
  exportCSVP data ++
  csvRecord ["db_name", "exec_time_ms", "exec_count", "reasons", "suggestions", "sql_query"] ++
  (data.anomalies.map anomalyCSVRow).flatten

/-! ## Lemmas about the derived reasons and suggestions -/

theorem mem_addIfAbsent (l : List String) (s t : String) :
    t ∈ addIfAbsent l s ↔ t ∈ l ∨ t = s := by
  unfold addIfAbsent
  split
  · rename_i h
    constructor
    · exact fun ht => Or.inl ht
    · rintro (ht | rfl)
      · exact ht
      · exact h
  · simp

/-- The reasons and suggestions of a record, written as explicit
concatenations of conditional singletons. -/
theorem derive_eq (it : SQLLog) (slowMs freqSlowMs freqCount : Int) :
    deriveReasonsAndSuggestions it slowMs freqSlowMs freqCount =
      ((if it.execTimeMs ≥ slowMs then ["slow_query"] else []) ++
       (if it.execTimeMs ≥ freqSlowMs ∧ it.execCount ≥ freqCount then
          ["frequent_and_slow"] else []) ++
       (if goContains (goToLower it.sqlQuery) "select *" then ["select_star"] else []),
       (if goContains (goToLower it.sqlQuery) "select *" then ["avoid_select_star"] else []) ++
       (if it.execTimeMs ≥ slowMs ∨
           (it.execTimeMs ≥ freqSlowMs ∧ it.execCount ≥ freqCount) then
          ["add_index_on_where_columns"] else []) ++
       (if it.execCount ≥ freqCount then ["consider_caching"] else [])) := by
  by_cases h1 : it.execTimeMs ≥ slowMs <;>
    by_cases h2 : it.execTimeMs ≥ freqSlowMs ∧ it.execCount ≥ freqCount <;>
      by_cases h3 : goContains (goToLower it.sqlQuery) "select *" = true <;>
        simp only [deriveReasonsAndSuggestions, addIfAbsent, h1, h2, h3, if_true, if_false,
          if_pos, if_neg, not_false_iff] <;>
        simp [h1, h2, h3] <;>
        split <;> simp

/-- C1: a record is classified anomalous exactly when
`exec_time_ms >= slow_ms`, or `exec_time_ms >= freq_slow_ms` and
`exec_count >= freq_count`; and for every classified record the reasons
list and the suggestions list contain no duplicate entries. -/
theorem C1_anomaly_classification (r : SQLLog) (slowMs freqSlowMs freqCount : Int)
    (hpos : 0 < slowMs ∧ 0 < freqSlowMs ∧ 0 < freqCount) :
    (isAnomalous slowMs freqSlowMs freqCount r = true ↔
      r.execTimeMs ≥ slowMs ∨ (r.execTimeMs ≥ freqSlowMs ∧ r.execCount ≥ freqCount)) ∧
    (deriveReasonsAndSuggestions r slowMs freqSlowMs freqCount).1.Nodup ∧
    (deriveReasonsAndSuggestions r slowMs freqSlowMs freqCount).2.Nodup := by
  refine ⟨by simp [isAnomalous], ?_, ?_⟩ <;>
  · rw [derive_eq]
    by_cases h1 : r.execTimeMs ≥ slowMs <;>
      by_cases h2 : r.execTimeMs ≥ freqSlowMs <;>
        by_cases h3 : goContains (goToLower r.sqlQuery) "select *" = true <;>
          by_cases h4 : r.execCount ≥ freqCount <;>
            simp [h1, h2, h3, h4]

theorem C1_anomaly_classification_witness :
    (deriveReasonsAndSuggestions ⟨"db1", "select 1", 1500, 200, 0⟩ 1000 500 100).1.Nodup ∧
    (deriveReasonsAndSuggestions ⟨"db1", "select 1", 1500, 200, 0⟩ 1000 500 100).2.Nodup :=
  (C1_anomaly_classification ⟨"db1", "select 1", 1500, 200, 0⟩ 1000 500 100
    (by decide)).2

/-- C3: for an anomalous record, `avoid_select_star` is suggested exactly
when the `select_star` reason is present; `add_index_on_where_columns`
exactly when `slow_query` or `frequent_and_slow` is present;
`consider_caching` exactly when `exec_count >= freq_count`; each suggestion
appears at most once, in the fixed order `avoid_select_star`,
`add_index_on_where_columns`, `consider_caching`. -/
theorem C3_suggestion_mapping (r : SQLLog) (slowMs freqSlowMs freqCount : Int)
    (h : isAnomalous slowMs freqSlowMs freqCount r = true) :
    ("avoid_select_star" ∈ (deriveReasonsAndSuggestions r slowMs freqSlowMs freqCount).2 ↔
      "select_star" ∈ (deriveReasonsAndSuggestions r slowMs freqSlowMs freqCount).1) ∧
    ("add_index_on_where_columns" ∈ (deriveReasonsAndSuggestions r slowMs freqSlowMs freqCount).2 ↔
      ("slow_query" ∈ (deriveReasonsAndSuggestions r slowMs freqSlowMs freqCount).1 ∨
       "frequent_and_slow" ∈ (deriveReasonsAndSuggestions r slowMs freqSlowMs freqCount).1)) ∧
    ("consider_caching" ∈ (deriveReasonsAndSuggestions r slowMs freqSlowMs freqCount).2 ↔
      r.execCount ≥ freqCount) ∧
    (deriveReasonsAndSuggestions r slowMs freqSlowMs freqCount).2.Nodup ∧
    List.Sublist (deriveReasonsAndSuggestions r slowMs freqSlowMs freqCount).2
      ["avoid_select_star", "add_index_on_where_columns", "consider_caching"] := by
  rw [derive_eq]
  by_cases h1 : r.execTimeMs ≥ slowMs <;>
    by_cases h2 : r.execTimeMs ≥ freqSlowMs <;>
      by_cases h3 : goContains (goToLower r.sqlQuery) "select *" = true <;>
        by_cases h4 : r.execCount ≥ freqCount <;>
          simp [h1, h2, h3, h4] <;> decide

theorem C3_suggestion_mapping_witness :
    "add_index_on_where_columns" ∈
      (deriveReasonsAndSuggestions ⟨"db1", "select 1", 1500, 200, 0⟩ 1000 500 100).2 ↔
    ("slow_query" ∈ (deriveReasonsAndSuggestions ⟨"db1", "select 1", 1500, 200, 0⟩ 1000 500 100).1 ∨
     "frequent_and_slow" ∈
       (deriveReasonsAndSuggestions ⟨"db1", "select 1", 1500, 200, 0⟩ 1000 500 100).1) :=
  (C3_suggestion_mapping ⟨"db1", "select 1", 1500, 200, 0⟩ 1000 500 100 (by decide)).2.1

/-! ## The parse-failure taxonomy -/

/-- C4: `ParseLine` fails exactly on an empty line, a structurally
non-matching line, a non-parseable number, a negative value, or an empty
database/SQL field after trimming; each failure carries the error kind of
the violated constraint, and a failure carries no record (the `Except`
error constructor has no record component). -/
theorem C4_parse_failure_taxonomy (s : String) :
    ((∃ k, ParseLine s = .error k) ↔
      emptyLineCond s ∨ malformedCond s ∨ invalidNumberCond s ∨
      negativeValueCond s ∨ missingFieldCond s) ∧
    (ParseLine s = .error .emptyLine ↔ emptyLineCond s) ∧
    (ParseLine s = .error .malformedFormat ↔ malformedCond s) ∧
    (ParseLine s = .error .invalidNumber ↔ invalidNumberCond s) ∧
    (ParseLine s = .error .negativeValue ↔ negativeValueCond s) ∧
    (ParseLine s = .error .missingField ↔ missingFieldCond s) := by
  by_cases h0 : goTrim s.data = []
  · have hp : ParseLine s = Except.error ParseErrKind.emptyLine := by
      simp [ParseLine, h0]
    have hlg : lineGroups ([] : List Char) = none := by rfl
    simp [hp, emptyLineCond, malformedCond, invalidNumberCond, negativeValueCond,
      missingFieldCond, h0, hlg]
  · have hne : (goTrim s.data).isEmpty = false := by
      simpa using h0
    rcases hG : lineGroups (goTrim s.data) with _ | ⟨g1, g2, d1, d2⟩
    · have hp : ParseLine s = Except.error ParseErrKind.malformedFormat := by
        simp [ParseLine, hne, hG]
      simp [hp, emptyLineCond, malformedCond, invalidNumberCond, negativeValueCond,
        missingFieldCond, h0, hG]
    · rcases h1 : goParseInt64 d1 with _ | t
      · have hp : ParseLine s = Except.error ParseErrKind.invalidNumber := by
          simp [ParseLine, hne, hG, h1]
        simp [hp, emptyLineCond, malformedCond, invalidNumberCond, negativeValueCond,
          missingFieldCond, h0, hG, h1]
      · rcases h2 : goParseInt64 d2 with _ | c
        · have hp : ParseLine s = Except.error ParseErrKind.invalidNumber := by
            simp [ParseLine, hne, hG, h1, h2]
          simp [hp, emptyLineCond, malformedCond, invalidNumberCond, negativeValueCond,
            missingFieldCond, h0, hG, h1, h2]
        · by_cases hm : goTrim g1 = [] ∨ goTrim g2 = []
          · have hp : ParseLine s = Except.error ParseErrKind.missingField := by
              rcases hm with hm | hm <;> simp [ParseLine, hne, hG, h1, h2, hm]
            rcases hm with hm | hm <;>
              simp [hp, emptyLineCond, malformedCond, invalidNumberCond, negativeValueCond,
                missingFieldCond, h0, hG, h1, h2, hm]
          · push_neg at hm
            by_cases hv : t < 0 ∨ c < 0
            · have hp : ParseLine s = Except.error ParseErrKind.negativeValue := by
                rcases hv with hv | hv <;>
                  simp [ParseLine, hne, hG, h1, h2, hm.1, hm.2, hv]
              simp [hp, emptyLineCond, malformedCond, invalidNumberCond, negativeValueCond,
                missingFieldCond, h0, hG, h1, h2, hm.1, hm.2, hv]
            · push_neg at hv
              have hp : ParseLine s =
                  Except.ok ⟨⟨goTrim g1⟩, ⟨goTrim g2⟩, t, c, 0⟩ := by
                simp [ParseLine, hne, hG, h1, h2, hm.1, hm.2, hv.1, hv.2]
              simp [hp, emptyLineCond, malformedCond, invalidNumberCond, negativeValueCond,
                missingFieldCond, h0, hG, h1, h2, hm.1, hm.2,
                show ¬t < 0 from by omega, show ¬c < 0 from by omega]

/-! ## Round-trip infrastructure: literals, digits, trimming -/

theorem stripLit_self_append (p l : List Char) : stripLit p (p ++ l) = some l := by
  induction p with
  | nil => rfl
  | cons c t ih => simp [stripLit, ih]

theorem stripLit_eq_some {p l r : List Char} (h : stripLit p l = some r) :
    l = p ++ r := by
  induction p generalizing l with
  | nil => simpa [stripLit] using h
  | cons c t ih =>
    cases l with
    | nil => simp [stripLit] at h
    | cons x xs =>
      by_cases hc : c = x
      · subst hc
        simp only [stripLit, if_pos rfl] at h
        simp [ih h]
      · simp [stripLit, hc] at h

theorem takeWhile_append_cons {p : Char → Bool} {l : List Char} (c : Char)
    (r : List Char) (hl : ∀ x ∈ l, p x = true) (hc : p c = false) :
    (l ++ c :: r).takeWhile p = l ∧ (l ++ c :: r).dropWhile p = c :: r := by
  induction l with
  | nil => simp [List.takeWhile, List.dropWhile, hc]
  | cons x xs ih =>
    have hx : p x = true := hl x (by simp)
    have ih2 := ih (fun y hy => hl y (by simp [hy]))
    simp [List.takeWhile, List.dropWhile, hx, ih2.1, ih2.2]

theorem takeWhile_all {p : Char → Bool} {l : List Char}
    (hl : ∀ x ∈ l, p x = true) :
    l.takeWhile p = l ∧ l.dropWhile p = [] := by
  induction l with
  | nil => simp
  | cons x xs ih =>
    have hx : p x = true := hl x (by simp)
    have ih2 := ih (fun y hy => hl y (by simp [hy]))
    simp [List.takeWhile, List.dropWhile, hx, ih2.1, ih2.2]

theorem digitChar_isDigit {d : Nat} (h : d < 10) : (digitChar d).isDigit = true := by
  interval_cases d <;> decide

theorem digitChar_toNat {d : Nat} (h : d < 10) : (digitChar d).toNat = 48 + d := by
  interval_cases d <;> decide

theorem natDigitsCore_ne_nil {fuel n : Nat} (h : n < fuel) :
    natDigitsCore fuel n ≠ [] := by
  cases fuel with
  | zero => omega
  | succ f =>
    by_cases h10 : n < 10 <;> simp [natDigitsCore, h10]

theorem natDigitsCore_digits {fuel n : Nat} (h : n < fuel) :
    ∀ c ∈ natDigitsCore fuel n, c.isDigit = true := by
  induction fuel generalizing n with
  | zero => omega
  | succ f ih =>
    by_cases h10 : n < 10
    · simpa [natDigitsCore, h10] using digitChar_isDigit h10
    · have hdiv : n / 10 < f := by
        have h1 : n / 10 < n := Nat.div_lt_self (by omega) (by omega)
        omega
      intro c hc
      simp only [natDigitsCore, if_neg h10, List.mem_append, List.mem_singleton] at hc
      rcases hc with hc | hc
      · exact ih hdiv c hc
      · subst hc; exact digitChar_isDigit (Nat.mod_lt _ (by omega))

theorem natDigitsCore_foldl {fuel : Nat} : ∀ {n : Nat}, n < fuel → ∀ a : Nat,
    (natDigitsCore fuel n).foldl (fun a c => a * 10 + (c.toNat - 48)) a =
      a * 10 ^ (natDigitsCore fuel n).length + n := by
  induction fuel with
  | zero => omega
  | succ f ih =>
    intro n h a
    by_cases h10 : n < 10
    · simp [natDigitsCore, h10, digitChar_toNat h10]
    · have hdiv : n / 10 < f := by
        have h1 : n / 10 < n := Nat.div_lt_self (by omega) (by omega)
        omega
      have hmod : n % 10 < 10 := Nat.mod_lt _ (by omega)
      simp only [natDigitsCore, if_neg h10, List.foldl_append, List.length_append,
        List.foldl_cons, List.foldl_nil, List.length_cons, List.length_nil,
        ih hdiv a, digitChar_toNat hmod]
      have : a * 10 ^ ((natDigitsCore f (n / 10)).length + (0 + 1)) =
          a * 10 ^ (natDigitsCore f (n / 10)).length * 10 := by ring
      rw [this]
      omega

theorem digitsToNat_natDigits (n : Nat) : digitsToNat (natDigits n) = n := by
  have := @natDigitsCore_foldl (n + 1) n (by omega) 0
  simpa [digitsToNat, natDigits] using this

theorem natDigits_ne_nil (n : Nat) : natDigits n ≠ [] :=
  natDigitsCore_ne_nil (by omega)

theorem natDigits_digits (n : Nat) : ∀ c ∈ natDigits n, c.isDigit = true :=
  natDigitsCore_digits (by omega)

theorem isDigit_not_goIsSpace {c : Char} (h : c.isDigit = true) :
    goIsSpace c = false := by
  cases hb : goIsSpace c
  case false => rfl
  case true =>
    exfalso
    have h8 : c = ' ' ∨ c = '\t' ∨ c = '\n' ∨ c = Char.ofNat 11 ∨ c = Char.ofNat 12 ∨
        c = '\r' ∨ c = Char.ofNat 133 ∨ c = Char.ofNat 160 := by
      simpa [goIsSpace, or_assoc] using hb
    rcases h8 with rfl | rfl | rfl | rfl | rfl | rfl | rfl | rfl <;>
      exact absurd h (by decide)

theorem isDigit_not_reIsSpace {c : Char} (h : c.isDigit = true) :
    reIsSpace c = false := by
  cases hb : reIsSpace c
  case false => rfl
  case true =>
    exfalso
    have h5 : c = '\t' ∨ c = '\n' ∨ c = Char.ofNat 12 ∨ c = '\r' ∨ c = ' ' := by
      simpa [reIsSpace, or_assoc] using hb
    rcases h5 with rfl | rfl | rfl | rfl | rfl <;> exact absurd h (by decide)

theorem isDigit_ne_comma {c : Char} (h : c.isDigit = true) : c ≠ ',' := by
  intro hc; subst hc; exact absurd h (by decide)

theorem reIsSpace_ne_comma {c : Char} (h : reIsSpace c = true) : c ≠ ',' := by
  intro hc; subst hc; exact absurd h (by decide)

/-- A list that starts and ends with a non-space character is invariant
under `goTrim`. -/
theorem goTrim_eq_self {a : Char} {m : List Char} {c : Char}
    (ha : goIsSpace a = false) (hc : goIsSpace c = false) :
    goTrim (a :: (m ++ [c])) = a :: (m ++ [c]) := by
  unfold goTrim dropTrailing
  rw [List.dropWhile_cons_of_neg (by simp [ha])]
  have hrev : (a :: (m ++ [c])).reverse = c :: (m.reverse ++ [a]) := by
    simp
  rw [hrev, List.dropWhile_cons_of_neg (by simp [hc])]
  simpa using hrev.symm ▸ (List.reverse_reverse _)

theorem takeWhile_mem {p : Char → Bool} {l : List Char} {c : Char}
    (h : c ∈ l.takeWhile p) : p c = true := by
  induction l with
  | nil => simp [List.takeWhile] at h
  | cons x xs ih =>
    by_cases hx : p x = true
    · rw [List.takeWhile_cons_of_pos hx] at h
      rcases List.mem_cons.mp h with rfl | h
      · exact hx
      · exact ih h
    · rw [List.takeWhile_cons_of_neg (by simpa using hx)] at h
      simp at h

/-! ## tailMatch and scanSql characterization -/

/-- A successful `tailMatch` decomposes its input into the two literals,
the two non-empty digit runs, and a trailing run of `\s` characters. -/
theorem tailMatch_some_decomp {l d1 d2 : List Char}
    (h : tailMatch l = some (d1, d2)) :
    d1 ≠ [] ∧ d2 ≠ [] ∧
    (∀ c ∈ d1, c.isDigit = true) ∧ (∀ c ∈ d2, c.isDigit = true) ∧
    ∃ w, (∀ c ∈ w, reIsSpace c = true) ∧
      l = ",exec_time_ms:".data ++ (d1 ++ (",exec_count:".data ++ (d2 ++ w))) := by
  unfold tailMatch at h
  split at h
  · exact absurd h (by simp)
  · rename_i r1 hs1
    dsimp only at h
    split at h
    · exact absurd h (by simp)
    · rename_i he1
      split at h
      · exact absurd h (by simp)
      · rename_i r3 hs2
        split at h
        · exact absurd h (by simp)
        · rename_i he2
          split at h
          · rename_i hall
            injection h with h
            have hd1 : List.takeWhile Char.isDigit r1 = d1 := congrArg Prod.fst h
            have hd2 : List.takeWhile Char.isDigit r3 = d2 := congrArg Prod.snd h
            subst hd1; subst hd2
            refine ⟨by simpa using he1, by simpa using he2,
              fun c hc => takeWhile_mem hc, fun c hc => takeWhile_mem hc,
              r3.dropWhile Char.isDigit, ?_, ?_⟩
            · intro c hc
              have := List.all_eq_true.mp hall c hc
              simpa using this
            · have e1 : l = ",exec_time_ms:".data ++ r1 := stripLit_eq_some hs1
              have e2 : List.dropWhile Char.isDigit r1 = ",exec_count:".data ++ r3 :=
                stripLit_eq_some hs2
              rw [e1]
              congr 1
              conv_lhs => rw [← List.takeWhile_append_dropWhile Char.isDigit r1]
              rw [e2]
              congr 2
              exact (List.takeWhile_append_dropWhile Char.isDigit r3).symm
          · exact absurd h (by simp)

/-- No proper extension to the left of the true anchored tail can match:
any non-empty `s2` prepended to the tail makes `tailMatch` fail (the
decomposition would force `s2` to begin with a comma it cannot contain). -/
theorem tailMatch_none_of_nonempty {s2 T C : List Char}
    (hs2 : s2 ≠ []) (hTd : ∀ c ∈ T, c.isDigit = true)
    (hCd : ∀ c ∈ C, c.isDigit = true) :
    tailMatch (s2 ++ (",exec_time_ms:".data ++ (T ++ (",exec_count:".data ++ C)))) =
      none := by
  cases htm : tailMatch (s2 ++ (",exec_time_ms:".data ++ (T ++ (",exec_count:".data ++ C)))) with
  | none => rfl
  | some pr =>
    exfalso
    obtain ⟨d1, d2⟩ := pr
    obtain ⟨-, -, hd1, hd2, w, hw, heq⟩ := tailMatch_some_decomp htm
    have hT0 : T.count ',' = 0 :=
      List.count_eq_zero.mpr (fun hm => isDigit_ne_comma (hTd _ hm) rfl)
    have hC0 : C.count ',' = 0 :=
      List.count_eq_zero.mpr (fun hm => isDigit_ne_comma (hCd _ hm) rfl)
    have hD10 : d1.count ',' = 0 :=
      List.count_eq_zero.mpr (fun hm => isDigit_ne_comma (hd1 _ hm) rfl)
    have hD20 : d2.count ',' = 0 :=
      List.count_eq_zero.mpr (fun hm => isDigit_ne_comma (hd2 _ hm) rfl)
    have hW0 : w.count ',' = 0 :=
      List.count_eq_zero.mpr (fun hm => reIsSpace_ne_comma (hw _ hm) rfl)
    have hL1 : (",exec_time_ms:".data).count ',' = 1 := by decide
    have hL2 : (",exec_count:".data).count ',' = 1 := by decide
    have hcnt := congrArg (List.count ',') heq
    simp only [List.count_append, hT0, hC0, hD10, hD20, hW0, hL1, hL2] at hcnt
    have hs20 : s2.count ',' = 0 := by omega
    obtain ⟨c, s2', rfl⟩ : ∃ c s2', s2 = c :: s2' := by
      cases s2 with
      | nil => exact absurd rfl hs2
      | cons c s2' => exact ⟨c, s2', rfl⟩
    have hhd : c = ',' := by
      have : (c :: s2') ++ (",exec_time_ms:".data ++ (T ++ (",exec_count:".data ++ C))) =
          ',' :: ("exec_time_ms:".data ++ (d1 ++ (",exec_count:".data ++ (d2 ++ w)))) := by
        rw [heq]; rfl
      simpa using congrArg List.head? this
    subst hhd
    simp [List.count_cons] at hs20

/-- The non-greedy scan over `sql ++ tail` returns exactly `sql` when the
tail matches and no non-empty suffix of `sql` extended by `tail` matches. -/
theorem scanSql_append {sql tail d1 d2 : List Char}
    (hnl : ∀ c ∈ sql, ¬c = '\n')
    (hfail : ∀ s2, s2 ≠ [] → s2 <:+ sql → tailMatch (s2 ++ tail) = none)
    (htail : tailMatch tail = some (d1, d2)) :
    scanSql (sql ++ tail) = some (sql, d1, d2) := by
  induction sql with
  | nil =>
    rw [List.nil_append]
    cases htl : tail with
    | nil => rw [htl] at htail; simp [scanSql, htail]
    | cons x xs => rw [htl] at htail; simp [scanSql, htail]
  | cons c rest ih =>
    have h1 : tailMatch ((c :: rest) ++ tail) = none :=
      hfail (c :: rest) (by simp) (List.suffix_refl _)
    have hc : ¬c = '\n' := hnl c (by simp)
    have ih2 : scanSql (rest ++ tail) = some (rest, d1, d2) :=
      ih (fun x hx => hnl x (by simp [hx]))
        (fun s2 hne hsuf => hfail s2 hne (hsuf.trans (List.suffix_cons c rest)))
    show scanSql (c :: (rest ++ tail)) = some (c :: rest, d1, d2)
    simp only [List.cons_append] at h1
    rw [scanSql]
    simp only [h1, if_neg hc, ih2]

/-- The anchored tail does match the rendering of two digit runs. -/
theorem tailMatch_concrete {T C : List Char} (hT : T ≠ []) (hC : C ≠ [])
    (hTd : ∀ c ∈ T, c.isDigit = true) (hCd : ∀ c ∈ C, c.isDigit = true) :
    tailMatch (",exec_time_ms:".data ++ (T ++ (",exec_count:".data ++ C))) =
      some (T, C) := by
  have hsplit := takeWhile_append_cons (p := Char.isDigit) ','
    ("exec_count:".data ++ C) hTd (by decide)
  have h1 : List.takeWhile Char.isDigit (T ++ (",exec_count:".data ++ C)) = T :=
    hsplit.1
  have h2 : List.dropWhile Char.isDigit (T ++ (",exec_count:".data ++ C)) =
      ",exec_count:".data ++ C := hsplit.2
  have hCall := takeWhile_all hCd
  have hTe : T.isEmpty = false := by simpa using hT
  have hCe : C.isEmpty = false := by simpa using hC
  unfold tailMatch
  rw [stripLit_self_append]
  dsimp only
  rw [h1, h2, hTe, stripLit_self_append]
  dsimp only
  rw [hCall.1, hCall.2, hCe]
  rfl

/-! ## C5: the parser round-trip -/

/-- C5 as stated is false: a record whose database name contains a comma
is valid by the stated conditions (non-empty database, non-empty SQL
without newlines, non-negative integers), yet re-parsing its formatted
line fails with a format error instead of returning the record. -/
theorem C5_roundtrip_counterexample :
    (SQLLog.mk "a,b" "q" 0 0 0).dbName ≠ "" ∧
    (SQLLog.mk "a,b" "q" 0 0 0).sqlQuery ≠ "" ∧
    '\n' ∉ (SQLLog.mk "a,b" "q" 0 0 0).sqlQuery.data ∧
    0 ≤ (SQLLog.mk "a,b" "q" 0 0 0).execTimeMs ∧
    0 ≤ (SQLLog.mk "a,b" "q" 0 0 0).execCount ∧
    ParseLine (formatLine (SQLLog.mk "a,b" "q" 0 0 0)) ≠
      Except.ok (SQLLog.mk "a,b" "q" 0 0 0) := by
  refine ⟨by decide, by decide, by decide, by decide, by decide, ?_⟩
  decide

/-- C5 (amended): for a record whose database name contains no comma, both
fields are non-empty after trimming, the SQL contains no newline, and the
two counters fit in a non-negative `int64`, formatting and re-parsing
succeeds and returns the record with the database and SQL fields
whitespace-trimmed (hence the original record whenever those fields carry
no leading or trailing white space). -/
theorem C5_roundtrip_amended (r : SQLLog)
    (hdb : goTrim r.dbName.data ≠ [])
    (hdbc : ',' ∉ r.dbName.data)
    (hsql : goTrim r.sqlQuery.data ≠ [])
    (hnl : '\n' ∉ r.sqlQuery.data)
    (ht0 : 0 ≤ r.execTimeMs) (ht1 : r.execTimeMs ≤ maxInt64)
    (hc0 : 0 ≤ r.execCount) (hc1 : r.execCount ≤ maxInt64) :
    ParseLine (formatLine r) =
      Except.ok ⟨goTrimString r.dbName, goTrimString r.sqlQuery,
        r.execTimeMs, r.execCount, 0⟩ := by
  have hTne : natDigits r.execTimeMs.toNat ≠ [] := natDigits_ne_nil _
  have hCne : natDigits r.execCount.toNat ≠ [] := natDigits_ne_nil _
  have hTd := natDigits_digits r.execTimeMs.toNat
  have hCd := natDigits_digits r.execCount.toNat
  have hdbne : r.dbName.data ≠ [] := by
    intro h
    exact hdb (by rw [h]; rfl)
  -- the formatted line, right-associated
  have hds : (formatLine r).data =
      "DB:".data ++ (r.dbName.data ++ (',' :: ("sql:".data ++ (r.sqlQuery.data ++
        (",exec_time_ms:".data ++ (natDigits r.execTimeMs.toNat ++
          (",exec_count:".data ++ natDigits r.execCount.toNat))))))) := by
    simp [formatLine, goIntRepr, if_neg (not_lt.2 ht0), if_neg (not_lt.2 hc0),
      String.data_append]
  -- the line is already trimmed: it starts with `D` and ends with a digit
  obtain ⟨C0, cl, hCsplit⟩ : ∃ C0 cl,
      natDigits r.execCount.toNat = C0 ++ [cl] := by
    rcases List.eq_nil_or_concat (natDigits r.execCount.toNat) with h | ⟨L, b, h⟩
    · exact absurd h hCne
    · exact ⟨L, b, by simpa [List.concat_eq_append] using h⟩
  have hcl : cl.isDigit = true := hCd cl (by simp [hCsplit])
  have hform : "DB:".data ++ (r.dbName.data ++ (',' :: ("sql:".data ++ (r.sqlQuery.data ++
        (",exec_time_ms:".data ++ (natDigits r.execTimeMs.toNat ++
          (",exec_count:".data ++ (C0 ++ [cl])))))))) =
      'D' :: (('B' :: ':' :: (r.dbName.data ++ (',' :: ("sql:".data ++ (r.sqlQuery.data ++
        (",exec_time_ms:".data ++ (natDigits r.execTimeMs.toNat ++
          (",exec_count:".data ++ C0)))))))) ++ [cl]) := by
    simp
  have htrim : goTrim (formatLine r).data = (formatLine r).data := by
    conv_lhs => rw [hds, hCsplit, hform]
    rw [goTrim_eq_self (by decide) (isDigit_not_goIsSpace hcl)]
    rw [← hform, ← hCsplit, ← hds]
  -- submatch extraction
  have hTW := takeWhile_append_cons (p := fun c => decide (c ≠ ','))  ','
    ("sql:".data ++ (r.sqlQuery.data ++
      (",exec_time_ms:".data ++ (natDigits r.execTimeMs.toNat ++
        (",exec_count:".data ++ natDigits r.execCount.toNat)))))
    (fun x hx => decide_eq_true (by rintro rfl; exact hdbc hx)) (by decide)
  have hscan : scanSql (r.sqlQuery.data ++
      (",exec_time_ms:".data ++ (natDigits r.execTimeMs.toNat ++
        (",exec_count:".data ++ natDigits r.execCount.toNat)))) =
      some (r.sqlQuery.data, natDigits r.execTimeMs.toNat,
        natDigits r.execCount.toNat) := by
    refine scanSql_append (fun x hx hxe => hnl (hxe ▸ hx)) ?_
      (tailMatch_concrete hTne hCne hTd hCd)
    intro s2 hne _
    exact tailMatch_none_of_nonempty hne hTd hCd
  have hdbe : r.dbName.data.isEmpty = false := by simpa using hdbne
  have hlg : lineGroups (formatLine r).data =
      some (r.dbName.data, r.sqlQuery.data, natDigits r.execTimeMs.toNat,
        natDigits r.execCount.toNat) := by
    unfold lineGroups
    rw [hds, stripLit_self_append]
    dsimp only
    rw [hTW.1, hTW.2, hdbe]
    dsimp only
    rw [stripLit_self_append]
    dsimp only
    rw [hscan]
    rfl
  have hp1 : goParseInt64 (natDigits r.execTimeMs.toNat) = some r.execTimeMs := by
    have hv : ((digitsToNat (natDigits r.execTimeMs.toNat) : Nat) : Int) =
        r.execTimeMs := by
      rw [digitsToNat_natDigits]
      exact Int.toNat_of_nonneg ht0
    unfold goParseInt64
    dsimp only
    rw [hv, if_neg (by omega : ¬r.execTimeMs > maxInt64)]
  have hp2 : goParseInt64 (natDigits r.execCount.toNat) = some r.execCount := by
    have hv : ((digitsToNat (natDigits r.execCount.toNat) : Nat) : Int) =
        r.execCount := by
      rw [digitsToNat_natDigits]
      exact Int.toNat_of_nonneg hc0
    unfold goParseInt64
    dsimp only
    rw [hv, if_neg (by omega : ¬r.execCount > maxInt64)]
  have hlne : (formatLine r).data.isEmpty = false := by
    rw [hds]
    rfl
  have hmiss : ((goTrim r.dbName.data).isEmpty || (goTrim r.sqlQuery.data).isEmpty) ≠ true := by
    intro h
    simp only [Bool.or_eq_true] at h
    rcases h with h | h
    · exact hdb (by simpa using h)
    · exact hsql (by simpa using h)
  have hneg : (decide (r.execTimeMs < 0) || decide (r.execCount < 0)) ≠ true := by
    intro h
    simp only [Bool.or_eq_true, decide_eq_true_eq] at h
    rcases h with h | h <;> omega
  unfold ParseLine
  dsimp only
  rw [htrim, hlne, hlg]
  dsimp only
  rw [hp1, hp2]
  dsimp only
  rw [if_neg hmiss, if_neg hneg]
  rfl

theorem C5_roundtrip_amended_witness :
    ParseLine (formatLine ⟨"d", "q", 7, 8, 0⟩) =
      Except.ok ⟨goTrimString "d", goTrimString "q", 7, 8, 0⟩ :=
  C5_roundtrip_amended ⟨"d", "q", 7, 8, 0⟩ (by decide) (by decide) (by decide)
    (by decide) (by decide) (by decide) (by decide) (by decide)

/-! ## C6: stream parsing over a finite line list -/

theorem exceptToOption_ok (r : SQLLog) :
    (Except.ok (ε := ParseErrKind) r).toOption = some r := rfl

theorem exceptToOption_error (k : ParseErrKind) :
    (Except.error (α := SQLLog) k).toOption = none := rfl

theorem uploadProcess_fold (lines : List String) :
    ∀ (t s : Nat) (e : List SQLLog),
    lines.foldl uploadStep (t, s, e) =
      (t + lines.length,
       s + (lines.countP fun l => (ParseLine l).toOption.isNone),
       e ++ lines.filterMap fun l => (ParseLine l).toOption) := by
  induction lines with
  | nil => intro t s e; simp
  | cons l ls ih =>
    intro t s e
    rw [List.foldl_cons, List.countP_cons, List.filterMap_cons]
    cases hp : ParseLine l with
    | ok r =>
      have hstep : uploadStep (t, s, e) l = (t + 1, s, e ++ [r]) := by
        simp [uploadStep, hp]
      rw [hstep, ih, exceptToOption_ok]
      simp only [Option.isNone_some, Bool.false_eq_true, if_false, List.length_cons,
        Prod.mk.injEq]
      refine ⟨by omega, by omega, by simp⟩
    | error k =>
      have hstep : uploadStep (t, s, e) l = (t + 1, s + 1, e) := by
        simp [uploadStep, hp]
      rw [hstep, ih, exceptToOption_error]
      simp only [Option.isNone_none, if_true, List.length_cons, Prod.mk.injEq]
      refine ⟨by omega, by omega, by simp⟩

theorem parseStreamEvents_cons (store : SQLLog → Bool) (l : String)
    (ls : List String) :
    parseStreamEvents store (l :: ls) =
      (match ParseLine l with
       | .error k => [StreamEvent.parseErr k]
       | .ok r => if store r then [StreamEvent.entry r]
                  else [StreamEvent.entry r, StreamEvent.storeErr]) ++
      parseStreamEvents store ls := by
  simp [parseStreamEvents]

theorem parseStreamEvents_counts (lines : List String) :
    (parseStreamEvents (fun _ => true) lines).length = lines.length ∧
    ((parseStreamEvents (fun _ => true) lines).countP StreamEvent.isEntry) +
      ((parseStreamEvents (fun _ => true) lines).countP StreamEvent.isParseErr) =
      lines.length := by
  induction lines with
  | nil => simp [parseStreamEvents]
  | cons l ls ih =>
    rw [parseStreamEvents_cons, List.length_append, List.countP_append,
      List.countP_append]
    cases hp : ParseLine l <;>
      simp only [List.length_cons, List.length_nil, List.length_singleton, if_true,
        List.countP_cons, List.countP_nil, StreamEvent.isEntry, StreamEvent.isParseErr,
        List.countP_singleton] <;>
      simp <;> omega

theorem acceptedRejected_total (lines : List String) :
    (lines.filterMap fun l => (ParseLine l).toOption).length +
      (lines.countP fun l => (ParseLine l).toOption.isNone) = lines.length := by
  induction lines with
  | nil => simp
  | cons l ls ih =>
    rw [List.filterMap_cons, List.countP_cons]
    cases hp : ParseLine l with
    | ok r =>
      rw [exceptToOption_ok]
      simp only [Option.isNone_some, Bool.false_eq_true, if_false, List.length_cons]
      omega
    | error k =>
      rw [exceptToOption_error]
      simp only [Option.isNone_none, if_true, List.length_cons]
      omega

/-- C6: for a finite stream (no cancellation, no scanner error, and the
Upload handler's accept callback, which always succeeds), every line
produces exactly one callback — accept on parse success, error on parse
failure — so `accepted + skipped = total = number of lines`, and the
accepted records appear in input order. -/
theorem C6_stream_partition (lines : List String) :
    (uploadProcess lines).1 = lines.length ∧
    (uploadProcess lines).2.2.length + (uploadProcess lines).2.1 = lines.length ∧
    (uploadProcess lines).2.2 = lines.filterMap (fun l => (ParseLine l).toOption) ∧
    (parseStreamEvents (fun _ => true) lines).length = lines.length ∧
    ((parseStreamEvents (fun _ => true) lines).countP StreamEvent.isEntry) +
      ((parseStreamEvents (fun _ => true) lines).countP StreamEvent.isParseErr) =
      lines.length := by
  have hfold := uploadProcess_fold lines 0 0 []
  have hcounts := parseStreamEvents_counts lines
  refine ⟨?_, ?_, ?_, hcounts.1, hcounts.2⟩
  · unfold uploadProcess
    rw [hfold]
    simp
  · unfold uploadProcess
    rw [hfold]
    simpa using acceptedRejected_total lines
  · unfold uploadProcess
    rw [hfold]
    simp

/-! ## C7: filter normalization -/

theorem normalizeTimes_spec (now : Int) (f : ReportFilter) :
    (normalizeTimes now f).db = f.db ∧ (normalizeTimes now f).limit = f.limit ∧
    (normalizeTimes now f).slowMs = f.slowMs ∧
    (normalizeTimes now f).freqSlowMs = f.freqSlowMs ∧
    (normalizeTimes now f).freqCount = f.freqCount ∧
    (normalizeTimes now f).maxCap = f.maxCap ∧
    (normalizeTimes now f).pcts = f.pcts ∧
    (normalizeTimes now f).topPatterns = f.topPatterns := by
  unfold normalizeTimes
  dsimp only
  split_ifs <;> simp

theorem normalizeFilter_fields (now : Int) (f : ReportFilter) :
    (normalizeFilter now f).slowMs = (if f.slowMs ≤ 0 then defaultSlowMs else f.slowMs) ∧
    (normalizeFilter now f).freqSlowMs =
      (if f.freqSlowMs ≤ 0 then defaultFreqSlowMs else f.freqSlowMs) ∧
    (normalizeFilter now f).freqCount =
      (if f.freqCount ≤ 0 then defaultFreqCount else f.freqCount) ∧
    (normalizeFilter now f).limit = clampLimit f.limit f.maxCap ∧
    (normalizeFilter now f).pcts = sanitizeFractions
      (if (if f.pcts.isEmpty then defaultPercentilesFractions else f.pcts).length >
          maxPercentilesCount then
        (if f.pcts.isEmpty then defaultPercentilesFractions else f.pcts).take
          maxPercentilesCount
       else (if f.pcts.isEmpty then defaultPercentilesFractions else f.pcts)) ∧
    (normalizeFilter now f).topPatterns =
      (if (if f.topPatterns ≤ 0 then defaultTopPatterns else f.topPatterns) >
          maxTopPatterns then maxTopPatterns
       else (if f.topPatterns ≤ 0 then defaultTopPatterns else f.topPatterns)) := by
  obtain ⟨-, hlim, hslow, hfs, hfc, hcap, hpcts, htop⟩ := normalizeTimes_spec now f
  unfold normalizeFilter normalizeTop normalizePcts normalizeThresholds normalizeLimit
  simp [hlim, hslow, hfs, hfc, hcap, hpcts, htop]

theorem clampLimit_eq (n cap : Int) :
    clampLimit n cap =
      if n ≤ 0 then defaultMaxAnomalies
      else min n (if cap > 0 then cap else maxAnomaliesCap) := by
  unfold clampLimit
  dsimp only
  rcases le_or_lt cap 0 with hc | hc <;> rcases le_or_lt n 0 with hn | hn <;>
    simp [hc, hn, not_le.2, min_def] <;> split_ifs <;> omega

theorem sanitizeStep_inv (l : List ℚ) :
    ∀ st : List Int × List ℚ,
    (∀ q ∈ st.2, ∃ k : ℤ, 0 ≤ k ∧ k ≤ 100 ∧ q = (k : ℚ) / 100 ∧ k ∈ st.1) →
    st.2.Nodup →
    (∀ q ∈ (l.foldl sanitizeStep st).2, ∃ k : ℤ, 0 ≤ k ∧ k ≤ 100 ∧
      q = (k : ℚ) / 100 ∧ k ∈ (l.foldl sanitizeStep st).1) ∧
    (l.foldl sanitizeStep st).2.Nodup ∧
    (l.foldl sanitizeStep st).2.length ≤ st.2.length + l.length := by
  induction l with
  | nil => intro st h1 h2; simpa using ⟨h1, h2⟩
  | cons v vs ih =>
    intro st h1 h2
    rw [List.foldl_cons]
    set v1 : ℚ := if v < 0 then 0 else v with hv1
    set v2 : ℚ := if v1 > 1 then 1 else v1 with hv2
    have hv2nn : 0 ≤ v2 := by
      rw [hv2, hv1]
      split_ifs <;> first | rfl | linarith | assumption | positivity
    have hv2le : v2 ≤ 1 := by
      rw [hv2, hv1]
      split_ifs <;> first | rfl | linarith
    set key : Int := ⌊v2 * 100 + 1 / 2⌋ with hkey
    have hk0 : 0 ≤ key := by
      rw [hkey]
      apply Int.le_floor.mpr
      push_cast
      nlinarith
    have hk100 : key ≤ 100 := by
      rw [hkey]
      have : (⌊v2 * 100 + 1 / 2⌋ : Int) < 101 := by
        apply Int.floor_lt.mpr
        push_cast
        nlinarith
      omega
    have hstep : sanitizeStep st v =
        if key ∈ st.1 then st else (key :: st.1, st.2 ++ [(key : ℚ) / 100]) := by
      rw [sanitizeStep, ← hv1, ← hv2, ← hkey]
    by_cases hmem : key ∈ st.1
    · rw [hstep, if_pos hmem]
      have := ih st h1 h2
      exact ⟨this.1, this.2.1, by have := this.2.2; simp only [List.length_cons]; omega⟩
    · rw [hstep, if_neg hmem]
      have hnew1 : ∀ q ∈ (st.2 ++ [(key : ℚ) / 100]), ∃ k : ℤ, 0 ≤ k ∧ k ≤ 100 ∧
          q = (k : ℚ) / 100 ∧ k ∈ key :: st.1 := by
        intro q hq
        rcases List.mem_append.mp hq with hq | hq
        · obtain ⟨k, ha, hb, hc, hd⟩ := h1 q hq
          exact ⟨k, ha, hb, hc, by simp [hd]⟩
        · rcases List.mem_singleton.mp hq with rfl
          exact ⟨key, hk0, hk100, rfl, by simp⟩
      have hnew2 : (st.2 ++ [(key : ℚ) / 100]).Nodup := by
        rw [List.nodup_append]
        refine ⟨h2, by simp, ?_⟩
        intro q hq hq'
        rcases List.mem_singleton.mp hq' with rfl
        obtain ⟨k, -, -, hc, hd⟩ := h1 _ hq
        have hkeq : key = k := by
          field_simp at hc
          exact_mod_cast hc
        subst hkeq
        exact hmem hd
      have := ih (key :: st.1, st.2 ++ [(key : ℚ) / 100]) hnew1 hnew2
      refine ⟨this.1, this.2.1, ?_⟩
      have hl := this.2.2
      simp at hl ⊢
      omega

theorem sanitizeFractions_spec (l : List ℚ) :
    (sanitizeFractions l).Sorted (· ≤ ·) ∧ (sanitizeFractions l).Nodup ∧
    (∀ q ∈ sanitizeFractions l, 0 ≤ q ∧ q ≤ 1 ∧ ∃ k : ℤ, q = (k : ℚ) / 100) ∧
    (sanitizeFractions l).length ≤ l.length := by
  unfold sanitizeFractions
  have hspec := sanitizeStep_inv l ([], []) (by simp) (by simp)
  have hperm := List.perm_insertionSort (α := ℚ) (· ≤ ·) (l.foldl sanitizeStep ([], [])).2
  refine ⟨List.sorted_insertionSort _ _, ?_, ?_, ?_⟩
  · exact hperm.nodup_iff.mpr hspec.2.1
  · intro q hq
    have hq' : q ∈ (l.foldl sanitizeStep ([], [])).2 := hperm.mem_iff.mp hq
    obtain ⟨k, hk0, hk100, rfl, -⟩ := hspec.1 q hq'
    refine ⟨by positivity, ?_, k, rfl⟩
    rw [div_le_one (by norm_num)]
    exact_mod_cast hk100
  · have := hspec.2.2
    rw [hperm.length_eq]
    simpa using this

/-- C7 is false as stated on the anomaly-limit clause: with a positive
hard cap of 300 and a requested limit of 0, the normalized limit is the
default 500, which exceeds the hard cap. -/
theorem C7_limit_cap_counterexample :
    (ReportFilter.mk 1 2 "" 0 1000 500 100 300 [] 20).limit ≤ 0 ∧
    (ReportFilter.mk 1 2 "" 0 1000 500 100 300 [] 20).maxCap = 300 ∧
    (ReportFilter.mk 1 2 "" 0 1000 500 100 300 [] 20).maxCap > 0 ∧
    (normalizeFilter 0 (ReportFilter.mk 1 2 "" 0 1000 500 100 300 [] 20)).limit = 500 ∧
    ¬(normalizeFilter 0 (ReportFilter.mk 1 2 "" 0 1000 500 100 300 [] 20)).limit ≤
      (ReportFilter.mk 1 2 "" 0 1000 500 100 300 [] 20).maxCap := by
  have h := (normalizeFilter_fields 0 (ReportFilter.mk 1 2 "" 0 1000 500 100 300 [] 20)).2.2.2.1
  rw [h]
  refine ⟨by decide, by decide, by decide, by decide, by decide⟩

/-- C7 (amended): thresholds default to 1000/500/100 when zero or
negative; the anomaly limit defaults to 500 when zero or negative (the
hard cap is not applied in that case), and a positive requested limit
never exceeds the hard cap (`MaxCap` when positive, otherwise the 5000
ceiling); the percentile fraction set is clamped into `[0,1]`, rounded to
2-decimal granularity, deduplicated, sorted ascending, with at most 10
entries; `top_patterns_count` defaults to 20 and is bounded by 1 to 200. -/
theorem C7_normalization_amended (now : Int) (f : ReportFilter) :
    (normalizeFilter now f).slowMs = (if f.slowMs ≤ 0 then 1000 else f.slowMs) ∧
    (normalizeFilter now f).freqSlowMs = (if f.freqSlowMs ≤ 0 then 500 else f.freqSlowMs) ∧
    (normalizeFilter now f).freqCount = (if f.freqCount ≤ 0 then 100 else f.freqCount) ∧
    (normalizeFilter now f).limit =
      (if f.limit ≤ 0 then 500 else min f.limit (if f.maxCap > 0 then f.maxCap else 5000)) ∧
    (normalizeFilter now f).pcts.Sorted (· ≤ ·) ∧
    (normalizeFilter now f).pcts.Nodup ∧
    (∀ q ∈ (normalizeFilter now f).pcts, 0 ≤ q ∧ q ≤ 1 ∧ ∃ k : ℤ, q = (k : ℚ) / 100) ∧
    (normalizeFilter now f).pcts.length ≤ 10 ∧
    (normalizeFilter now f).topPatterns =
      (if f.topPatterns ≤ 0 then 20 else min f.topPatterns 200) ∧
    1 ≤ (normalizeFilter now f).topPatterns ∧
    (normalizeFilter now f).topPatterns ≤ 200 := by
  obtain ⟨h1, h2, h3, h4, h5, h6⟩ := normalizeFilter_fields now f
  have hs := sanitizeFractions_spec
    (if (if f.pcts.isEmpty then defaultPercentilesFractions else f.pcts).length >
        maxPercentilesCount then
      (if f.pcts.isEmpty then defaultPercentilesFractions else f.pcts).take
        maxPercentilesCount
     else (if f.pcts.isEmpty then defaultPercentilesFractions else f.pcts))
  have hinlen : (if (if f.pcts.isEmpty then defaultPercentilesFractions else f.pcts).length >
      maxPercentilesCount then
      (if f.pcts.isEmpty then defaultPercentilesFractions else f.pcts).take
        maxPercentilesCount
     else (if f.pcts.isEmpty then defaultPercentilesFractions else f.pcts)).length ≤ 10 := by
    split_ifs with hp hq <;> simp_all [maxPercentilesCount] <;> omega
  refine ⟨h1, h2, h3, ?_, ?_, ?_, ?_, ?_, ?_, ?_, ?_⟩
  · rw [h4, clampLimit_eq]
    rfl
  · rw [h5]; exact hs.1
  · rw [h5]; exact hs.2.1
  · rw [h5]; exact hs.2.2.1
  · rw [h5]
    calc (sanitizeFractions _).length ≤ _ := hs.2.2.2
      _ ≤ 10 := hinlen
  · rw [h6]
    unfold defaultTopPatterns maxTopPatterns
    split_ifs <;> simp [min_def] <;> omega
  · rw [h6]
    unfold defaultTopPatterns maxTopPatterns
    split_ifs <;> omega
  · rw [h6]
    unfold defaultTopPatterns maxTopPatterns
    split_ifs <;> omega

theorem C7_normalization_amended_witness :
    (normalizeFilter 0 (ReportFilter.mk 1 2 "" 0 0 0 0 0 [] 0)).slowMs =
      (if (ReportFilter.mk 1 2 "" 0 0 0 0 0 [] 0).slowMs ≤ 0 then 1000
       else (ReportFilter.mk 1 2 "" 0 0 0 0 0 [] 0).slowMs) :=
  (C7_normalization_amended 0 (ReportFilter.mk 1 2 "" 0 0 0 0 0 [] 0)).1

/-! ## C2 and C10: the Analyze pipeline -/

/-- C2: when the count of matching anomalies strictly exceeds the
effective limit, the returned anomaly list has exactly the limit's length
while the reported `AnomalyCount` is the full count. -/
theorem C2_anomaly_count_vs_list (rows : List SQLLog) (normalize : String → String)
    (now : Int) (f : ReportFilter)
    (h : ((rows.filter (rowInWindow (normalizeFilter now f))).filter
        (fun r => isAnomalous (normalizeFilter now f).slowMs
          (normalizeFilter now f).freqSlowMs (normalizeFilter now f).freqCount r)).length >
      (normalizeFilter now f).limit.toNat) :
    (Analyze rows normalize now f).anomalies.length =
      (normalizeFilter now f).limit.toNat ∧
    (Analyze rows normalize now f).summary.anomalyCount =
      ((rows.filter (rowInWindow (normalizeFilter now f))).filter
        (fun r => isAnomalous (normalizeFilter now f).slowMs
          (normalizeFilter now f).freqSlowMs (normalizeFilter now f).freqCount r)).length := by
  constructor
  · unfold Analyze
    dsimp only
    rw [List.length_map, List.length_take,
      (List.perm_insertionSort anomOrder _).length_eq]
    omega
  · unfold Analyze
    dsimp only

theorem C2_anomaly_count_vs_list_witness :
    (Analyze [SQLLog.mk "db1" "q1" 2000 1 5, SQLLog.mk "db1" "q2" 1500 1 5] id 0
        (ReportFilter.mk 1 10 "" 1 1000 500 100 0 [1/2] 1)).anomalies.length =
      (normalizeFilter 0 (ReportFilter.mk 1 10 "" 1 1000 500 100 0 [1/2] 1)).limit.toNat ∧
    (Analyze [SQLLog.mk "db1" "q1" 2000 1 5, SQLLog.mk "db1" "q2" 1500 1 5] id 0
        (ReportFilter.mk 1 10 "" 1 1000 500 100 0 [1/2] 1)).summary.anomalyCount =
      (([SQLLog.mk "db1" "q1" 2000 1 5, SQLLog.mk "db1" "q2" 1500 1 5].filter
          (rowInWindow (normalizeFilter 0 (ReportFilter.mk 1 10 "" 1 1000 500 100 0 [1/2] 1)))).filter
        (fun r => isAnomalous
          (normalizeFilter 0 (ReportFilter.mk 1 10 "" 1 1000 500 100 0 [1/2] 1)).slowMs
          (normalizeFilter 0 (ReportFilter.mk 1 10 "" 1 1000 500 100 0 [1/2] 1)).freqSlowMs
          (normalizeFilter 0 (ReportFilter.mk 1 10 "" 1 1000 500 100 0 [1/2] 1)).freqCount r)).length :=
  C2_anomaly_count_vs_list [SQLLog.mk "db1" "q1" 2000 1 5, SQLLog.mk "db1" "q2" 1500 1 5]
    id 0 (ReportFilter.mk 1 10 "" 1 1000 500 100 0 [1/2] 1) (by decide)

/-- An anomalous record always derives a non-empty reason list containing
a slow reason, and the `add_index_on_where_columns` suggestion. -/
theorem derive_of_anomalous {r : SQLLog} {s fs fc : Int}
    (h : isAnomalous s fs fc r = true) :
    (deriveReasonsAndSuggestions r s fs fc).1 ≠ [] ∧
    "add_index_on_where_columns" ∈ (deriveReasonsAndSuggestions r s fs fc).2 := by
  rw [derive_eq]
  simp only [isAnomalous, Bool.or_eq_true, Bool.and_eq_true, decide_eq_true_eq] at h
  rcases h with h | h
  · constructor
    · simp [h]
    · simp [h]
  · constructor
    · simp [show r.execTimeMs ≥ fs ∧ r.execCount ≥ fc from h]
    · simp [show r.execTimeMs ≥ fs ∧ r.execCount ≥ fc from h]

/-- C10: every returned anomaly satisfies the anomaly predicate, hence has
a non-empty reason list and carries `add_index_on_where_columns`; as a
consequence the reported `SuggestionCount` equals the length of the
limit-capped anomaly list (not a count over the full anomaly set). -/
theorem C10_suggestion_count (rows : List SQLLog) (normalize : String → String)
    (now : Int) (f : ReportFilter) :
    (∀ a ∈ (Analyze rows normalize now f).anomalies,
      a.reasons ≠ [] ∧ "add_index_on_where_columns" ∈ a.suggestions) ∧
    (Analyze rows normalize now f).summary.suggestionCount =
      (Analyze rows normalize now f).anomalies.length := by
  have hmem : ∀ a ∈ (Analyze rows normalize now f).anomalies,
      a.reasons ≠ [] ∧ "add_index_on_where_columns" ∈ a.suggestions := by
    intro a ha
    unfold Analyze at ha
    dsimp only at ha
    obtain ⟨it, hit, rfl⟩ := List.mem_map.mp ha
    have hit2 : it ∈ List.insertionSort anomOrder
        ((rows.filter (rowInWindow (normalizeFilter now f))).filter
          (fun r => isAnomalous (normalizeFilter now f).slowMs
            (normalizeFilter now f).freqSlowMs (normalizeFilter now f).freqCount r)) :=
      List.take_subset _ _ hit
    have hit3 := (List.perm_insertionSort anomOrder _).mem_iff.mp hit2
    have hanom := (List.mem_filter.mp hit3).2
    exact derive_of_anomalous hanom
  refine ⟨hmem, ?_⟩
  show (Analyze rows normalize now f).summary.suggestionCount =
    (Analyze rows normalize now f).anomalies.length
  have : (Analyze rows normalize now f).summary.suggestionCount =
      ((Analyze rows normalize now f).anomalies).countP
        (fun a => !a.suggestions.isEmpty) := by
    unfold Analyze
    dsimp only
  rw [this]
  apply List.countP_eq_length.mpr
  intro a ha
  have hadd := (hmem a ha).2
  cases hs : a.suggestions with
  | nil => rw [hs] at hadd; simp at hadd
  | cons x xs => simp [hs]

theorem C10_suggestion_count_witness :
    (Analyze [SQLLog.mk "db1" "q1" 2000 1 5, SQLLog.mk "db1" "q2" 1500 1 5] id 0
        (ReportFilter.mk 1 10 "" 1 1000 500 100 0 [1/2] 1)).summary.suggestionCount =
      (Analyze [SQLLog.mk "db1" "q1" 2000 1 5, SQLLog.mk "db1" "q2" 1500 1 5] id 0
        (ReportFilter.mk 1 10 "" 1 1000 500 100 0 [1/2] 1)).anomalies.length :=
  (C10_suggestion_count [SQLLog.mk "db1" "q1" 2000 1 5, SQLLog.mk "db1" "q2" 1500 1 5]
    id 0 (ReportFilter.mk 1 10 "" 1 1000 500 100 0 [1/2] 1)).2

/-! ## C8: top-pattern ranking -/

/-- C8 is false as stated for the overall scope: the overall query orders
by occurrence count descending only (no pattern tie-break), so with two
patterns of equal count the order `b` before `a` is an admissible result,
and it is not ranked with the pattern-ascending tie-break. -/
theorem C8_top_patterns_counterexample :
    topOverallAdmissible id
      [SQLLog.mk "db1" "b" 10 1 5, SQLLog.mk "db1" "a" 10 1 5]
      (ReportFilter.mk 1 10 "" 500 1000 500 100 5000 [] 2)
      [("b", 1), ("a", 1)] ∧
    ¬List.Pairwise rankLE [("b", 1), ("a", 1)] := by
  constructor
  · exact ⟨[("b", 1), ("a", 1)], by decide, by decide, by decide⟩
  · intro hp
    have hr := List.rel_of_pairwise_cons hp (List.mem_singleton.mpr rfl)
    have hab : "a" < "b" := by
      rw [String.lt_iff_toList_lt]
      decide
    rcases hr with h | ⟨-, h⟩
    · exact absurd h (by decide)
    · exact absurd h (not_le.mpr hab)

/-- C8 (amended): every per-database top-pattern list is ordered by
occurrence count descending with ties broken by pattern text ascending and
is capped at `top_patterns_count`; the overall list is ordered by
occurrence count descending (tie order unspecified) and is capped at
`top_patterns_count`. -/
theorem C8_top_patterns_amended (normalize : String → String) (rows : List SQLLog)
    (f : ReportFilter) (res : List (String × Nat)) (db : String)
    (h : topOverallAdmissible normalize rows f res) :
    (List.Pairwise (fun a b => a.2 ≥ b.2) res ∧ res.length ≤ f.topPatterns.toNat) ∧
    (List.Pairwise rankLE (topPerDB normalize rows f db) ∧
      (topPerDB normalize rows f db).length ≤ f.topPatterns.toNat) := by
  obtain ⟨l, hperm, hsort, rfl⟩ := h
  refine ⟨⟨?_, ?_⟩, ?_, ?_⟩
  · exact hsort.sublist (List.take_sublist _ _)
  · simpa using List.length_take_le _ _
  · have hs : List.Pairwise rankLE (List.insertionSort rankLE
        (aggPatternCounts normalize
          ((rows.filter (rowInWindow f)).filter (fun r => r.dbName == db)))) :=
      List.sorted_insertionSort rankLE _
    exact hs.sublist (List.take_sublist _ _)
  · unfold topPerDB
    simpa using List.length_take_le _ _

theorem C8_top_patterns_amended_witness :
    List.Pairwise (fun a b : String × Nat => a.2 ≥ b.2) [("b", 1), ("a", 1)] :=
  ((C8_top_patterns_amended id
    [SQLLog.mk "db1" "b" 10 1 5, SQLLog.mk "db1" "a" 10 1 5]
    (ReportFilter.mk 1 10 "" 500 1000 500 100 5000 [] 2)
    [("b", 1), ("a", 1)] "db1"
    ⟨[("b", 1), ("a", 1)], by decide, by decide, by decide⟩).1).1

/-! ## C9: CSV export -/

/-- C9: `ExportCSV` is total (the csv writer over an in-memory buffer has
no failure path, so `w.Error()` is always nil), and for every report —
including one with zero anomalies and empty statistics sections — its
output ends with the anomaly table: the exact header row
`db_name,exec_time_ms,exec_count,reasons,suggestions,sql_query`, then one
CSV record per anomaly in list order, whose reasons and suggestions are
joined with `|` and whose SQL text has newlines replaced by spaces. -/
theorem C9_export_csv_final_block (data : ReportData) :
    ExportCSV data = exportCSVP data ++
      ("db_name,exec_time_ms,exec_count,reasons,suggestions,sql_query\n".data ++
        (data.anomalies.map (fun a =>
          csvRecord [a.dbName, goIntRepr a.execTimeMs, goIntRepr a.execCount,
            String.intercalate "|" a.reasons, String.intercalate "|" a.suggestions,
            ⟨a.sqlQuery.data.map (fun c => if c = '\n' then ' ' else c)⟩])).flatten) := by
  unfold ExportCSV
  rw [List.append_assoc,
    show csvRecord ["db_name", "exec_time_ms", "exec_count", "reasons",
        "suggestions", "sql_query"] =
      "db_name,exec_time_ms,exec_count,reasons,suggestions,sql_query\n".data from
      by decide]
  have hrow : anomalyCSVRow = (fun a : AnomalyDetail =>
      csvRecord [a.dbName, goIntRepr a.execTimeMs, goIntRepr a.execCount,
        String.intercalate "|" a.reasons, String.intercalate "|" a.suggestions,
        ⟨a.sqlQuery.data.map (fun c => if c = '\n' then ' ' else c)⟩]) := by
    funext a
    rfl
  rw [hrow]

end SqllogModel
